import Mathlib

/-!
Verification of the `whatlies` vector-set algebra core (`whatlies/embeddingset.py`).

Vectors are modelled as `List ℚ` (exact arithmetic in place of floating point:
every dot product, projection and mean below is the exact counterpart of the
numpy expression in the source).  The `Embedding` leaf class lives in
`whatlies/embedding.py`, which is not part of the sources provided; its
elementary operations are modelled from the spec (section 4.1) and are marked
as such in their doc comments.  Everything about `EmbeddingSet` is translated
directly from `whatlies/embeddingset.py`.
-/

namespace Whatlies

/-- Dot product of two rational vectors (`np.dot` on equal-length vectors;
`List.zipWith` mirrors numpy's elementwise product). -/
def dotQ (a b : List ℚ) : ℚ :=
  (List.zipWith (fun x y => x * y) a b).sum

/-- Modelled from the spec: a Vector Entity (`whatlies/embedding.py` is not in
the provided sources).  It carries a `name`, a fixed-length rational `vector`
and a property mapping (spec section 3).  The `original_label` field and other
plot metadata play no role in any claim and are omitted. -/
structure Embedding where
  name : String
  vector : List ℚ
  props : List (String × String)
deriving Repr, DecidableEq

/-- Modelled from the spec (section 4.1, `add`): elementwise sum, name
`"(a.name + b.name)"`. -/
def Embedding.add (a b : Embedding) : Embedding :=
  ⟨"(" ++ a.name ++ " + " ++ b.name ++ ")",
   List.zipWith (fun x y => x + y) a.vector b.vector, []⟩

/-- Modelled from the spec (section 4.1, `subtract`): elementwise difference,
name `"(a.name - b.name)"`. -/
def Embedding.sub (a b : Embedding) : Embedding :=
  ⟨"(" ++ a.name ++ " - " ++ b.name ++ ")",
   List.zipWith (fun x y => x - y) a.vector b.vector, []⟩

/-- Modelled from the spec (section 4.1, `orthogonal_to`, the `|` operator on
entities): `a - ((a·b)/(b·b)) * b`.  Rational division by zero is zero, so a
zero-norm operand makes this the identity on `a` — exactly the "no-op skip"
the spec's section 4.3 prescribes for degenerate Gram-Schmidt steps; the
claims below never divide by a zero norm except where that skip is intended. -/
def Embedding.orth (a b : Embedding) : Embedding :=
  ⟨a.name ++ " | " ++ b.name,
   List.zipWith (fun x y => x - (dotQ a.vector b.vector / dotQ b.vector b.vector) * y)
     a.vector b.vector, []⟩

/-- Modelled from the spec (section 4.5, `add_property`): a copy of the entity
whose property mapping gains/overwrites the key `k` with value `v`. -/
def Embedding.addProp (a : Embedding) (k v : String) : Embedding :=
  ⟨a.name, a.vector,
   if k ∈ a.props.map Prod.fst
     then a.props.map (fun q => if q.1 = k then (k, v) else q)
     else a.props ++ [(k, v)]⟩

/-- Placeholder entity, used only to give total Lean types to lookups the
Python source performs on keys it already knows to be present. -/
def defaultEmb : Embedding := ⟨"", [], []⟩

/-- The collection: `name` plus the `embeddings` dict, modelled as an
insertion-ordered association list (Python dicts preserve insertion order). -/
structure EmbeddingSet where
  name : String
  embeddings : List (String × Embedding)
deriving Repr, DecidableEq

/-- First-match association-list lookup: `d[k]` / `k in d` on a Python dict
(whose keys are unique, so first match is the match). -/
def alook (k : String) : List (String × Embedding) → Option Embedding
  | [] => none
  | p :: rest => if p.1 = k then some p.2 else alook k rest

/-- Python `d[k] = v` on an insertion-ordered dict: overwrite in place if the
key exists, else append. -/
def dictSet (d : List (String × Embedding)) (k : String) (v : Embedding) :
    List (String × Embedding) :=
  if k ∈ d.map Prod.fst
    then d.map (fun q => if q.1 = k then (k, v) else q)
    else d ++ [(k, v)]

/-- Python's double-splat dict union of `a` and `b` (each with unique keys):
the keys of `a` in order, values overridden by `b` where present, then the
keys of `b` absent from `a`, in order. -/
def dictMerge (a b : List (String × Embedding)) : List (String × Embedding) :=
  a.map (fun p => match alook p.1 b with | some v => (p.1, v) | none => p)
  ++ b.filter (fun q => decide (q.1 ∉ a.map Prod.fst))

/-- Errors raised by `embeddingset.py`, by Python exception site:
`indexError` = `embeddings[0]` on an empty argument tuple;
`duplicateNames` = the `raise Warning(... same name ...)` in `__init__`;
`shapeMismatch` = `ValueError("Not all vectors have the same shape.")`;
`invalidRequest` = `ValueError("You cannot retreive (n=...) more items ...")`;
`unknownName` = `ValueError("Embedding for ... does not exist ...")`;
`keyError` = `KeyError` from `self.embeddings[thing]`. -/
inductive EmbErr where
  | indexError
  | duplicateNames
  | shapeMismatch
  | invalidRequest
  | unknownName
  | keyError
deriving Repr, DecidableEq

/-- `if not name: name = "EmbSet"` in `__init__` (both `None` and the empty
string are falsy). -/
def resolveName (nm : Option String) : String :=
  match nm with
  | none => "EmbSet"
  | some s => if s = "" then "EmbSet" else s

/-- The shape check of `__init__`:
`uniq_shapes = set(v.vector.shape ...); if len(uniq_shapes) > 1: raise`.
For 1-d vectors the shape is the length; `List.dedup` plays the `set`. -/
def shapeOk (d : List (String × Embedding)) : Bool :=
  (d.map (fun p => p.2.vector.length)).dedup.length ≤ 1

/-- Tail of `__init__` once `self.embeddings` is known: run the shape check,
then produce the set. -/
def finishInit (nm : Option String) (d : List (String × Embedding)) :
    Except EmbErr EmbeddingSet :=
  if shapeOk d then .ok ⟨resolveName nm, d⟩ else .error .shapeMismatch

/-- A positional argument of `EmbeddingSet(*embeddings)`: either a single
`name -> Embedding` dict or an `Embedding`.  (The source dispatches on
`isinstance(embeddings[0], dict)`.) -/
inductive InitArg where
  | dict (d : List (String × Embedding))
  | emb (e : Embedding)
deriving Repr, DecidableEq

/-- `EmbeddingSet.__init__`.  `embeddings[0]` on an empty tuple raises
`IndexError`; a leading dict is taken as the whole mapping; otherwise all
arguments are embeddings (a dict after an embedding would be a type error in
the source and never occurs), the duplicate-name check runs
(`len(names) != len(set(names))`), then the name-keyed dict of the entities
is built and the shape check runs. -/
def mkEmbeddingSet (args : List InitArg) (nm : Option String) :
    Except EmbErr EmbeddingSet :=
  match args with
  | [] => .error .indexError
  | InitArg.dict d :: _ => finishInit nm d
  | InitArg.emb _ :: _ =>
    let embs := args.filterMap (fun a =>
      match a with | InitArg.emb e => some e | InitArg.dict _ => none)
    let names := embs.map Embedding.name
    if names.dedup.length = names.length
      then finishInit nm (embs.map (fun e => (e.name, e)))
      else .error .duplicateNames

instance instDecEqExcept {ε α : Type} [DecidableEq ε] [DecidableEq α] :
    DecidableEq (Except ε α)
  | .ok a, .ok b =>
    if h : a = b then isTrue (by simp [h]) else isFalse (by simp [h])
  | .ok _, .error _ => isFalse (by simp)
  | .error _, .ok _ => isFalse (by simp)
  | .error e, .error f =>
    if h : e = f then isTrue (by simp [h]) else isFalse (by simp [h])

/-- `x` if it is `some`, else `y` (Python's "later dict wins" combinator). -/
def optOr (x y : Option Embedding) : Option Embedding :=
  match x with
  | some v => some v
  | none => y

/-- `EmbeddingSet.filter`: the dict comprehension keeping the entries whose
value satisfies the predicate, rebuilt through `__init__` with no name
argument. -/
def filterSet (C : EmbeddingSet) (p : Embedding → Bool) :
    Except EmbErr EmbeddingSet :=
  mkEmbeddingSet [InitArg.dict (C.embeddings.filter (fun kv => p kv.2))] none

/-- `EmbeddingSet.merge`: the double-splat union of the two entry dicts —
`other` winning on shared names — rebuilt through `__init__` with no name
argument. -/
def mergeSet (C D : EmbeddingSet) : Except EmbErr EmbeddingSet :=
  mkEmbeddingSet [InitArg.dict (dictMerge C.embeddings D.embeddings)] none

/-- `EmbeddingSet.add_property`: the dict mapping every key to
`e.add_property(name, func)` — every entity gains the property — rebuilt
through `__init__` with no name argument. -/
def addProperty (C : EmbeddingSet) (k : String) (f : Embedding → String) :
    Except EmbErr EmbeddingSet :=
  mkEmbeddingSet
    [InitArg.dict (C.embeddings.map (fun kv => (kv.1, kv.2.addProp k (f kv.2))))]
    none

/-- Elementwise sum of a list of equal-length vectors (the row sum inside
`np.mean(x, axis=0)`). -/
def sumVecs : List (List ℚ) → List ℚ
  | [] => []
  | [v] => v
  | v :: w :: vs => List.zipWith (fun x y => x + y) v (sumVecs (w :: vs))

/-- `np.mean(x, axis=0)` on the row list: the elementwise sum divided by the
number of rows. -/
def meanVec (rows : List (List ℚ)) : List ℚ :=
  (sumVecs rows).map (fun x => x / (rows.length : ℚ))

/-- The name defaulting of `average`: a falsy `name` argument is replaced by
the collection's own name followed by `.average()`. -/
def avgName (C : EmbeddingSet) (nm : Option String) : String :=
  match nm with
  | none => C.name ++ ".average()"
  | some s => if s = "" then C.name ++ ".average()" else s

/-- `EmbeddingSet.average`.  The source contains no `raise`; the `Except`
wrapper records exactly that (the result is always `.ok`).  On a collection
with zero members `np.mean` emits a `RuntimeWarning` and yields `NaN` rather
than raising; that degenerate value is modelled as the empty vector. -/
def averageSet (C : EmbeddingSet) (nm : Option String) : Except EmbErr Embedding :=
  .ok ⟨avgName C nm, meanVec (C.embeddings.map (fun kv => kv.2.vector)), []⟩

/-- `__getitem__` with a string: `self.embeddings[thing]`, raising `KeyError`
on an absent name. -/
def getItemStr (C : EmbeddingSet) (s : String) : Except EmbErr Embedding :=
  match alook s C.embeddings with
  | some e => .ok e
  | none => .error .keyError

/-- The left-to-right evaluation of the dict comprehension mapping each `t` of
`thing` to `self[t]`: each name is looked up in order, the first absent one
raising `KeyError`. -/
def getPairs (C : EmbeddingSet) : List String → Except EmbErr (List (String × Embedding))
  | [] => .ok []
  | t :: ts =>
    match alook t C.embeddings with
    | none => .error .keyError
    | some e =>
      match getPairs C ts with
      | .error err => .error err
      | .ok rest => .ok ((t, e) :: rest)

/-- `__getitem__` with a sequence of names: the dict comprehension mapping
each `t` of `thing` to `self[t]`, wrapped into a new `EmbeddingSet` whose
name is the source name followed by `.subset(` plus the comma-joined names
plus `)`.  The dict comprehension is the left fold of `d[t] = self[t]` over
the looked-up pairs. -/
def getItemList (C : EmbeddingSet) (ts : List String) :
    Except EmbErr EmbeddingSet :=
  match getPairs C ts with
  | .error err => .error err
  | .ok pairs =>
    mkEmbeddingSet [InitArg.dict (pairs.foldl (fun acc q => dictSet acc q.1 q.2) [])]
      (some (C.name ++ ".subset(" ++ String.intercalate "," ts ++ ")"))

/-- A distance metric, the `metric` argument `sklearn.pairwise_distances`
receives: an arbitrary function of the two raw vectors. -/
abbrev Metric := List ℚ → List ℚ → ℚ

/-- The query argument of `score_similar`: a member name or an entity
(`Union[str, Embedding]` in the source). -/
inductive Query where
  | name (s : String)
  | entity (e : Embedding)

/-- The query resolution of `score_similar`: a string is looked up
(`ValueError` if absent — `unknownName`), an entity passes through. -/
def resolveQuery (C : EmbeddingSet) (q : Query) : Except EmbErr Embedding :=
  match q with
  | .name s =>
    match alook s C.embeddings with
    | some e => .ok e
    | none => .error .unknownName
  | .entity e => .ok e

/-- Insert a scored pair into a list, before the first pair with a key not
smaller than its own: the insertion step of a stable ascending sort. -/
def insertByKey (x : String × ℚ) : List (String × ℚ) → List (String × ℚ)
  | [] => [x]
  | y :: ys => if x.2 ≤ y.2 then x :: y :: ys else y :: insertByKey x ys

/-- Python's `sorted(..., key=lambda z: z[1])`: a stable ascending sort on the
score, modelled by stable insertion sort (every stable sort produces the same
output sequence). -/
def sortByKey : List (String × ℚ) → List (String × ℚ)
  | [] => []
  | x :: xs => insertByKey x (sortByKey xs)

/-- Python's slice `l[:n]` for an integer `n`: the first `n` items when
`n ≥ 0`, all but the last `-n` items when `n < 0`. -/
def pyTake {α : Type} (n : ℤ) (l : List α) : List α :=
  if n < 0 then l.take ((l.length : ℤ) + n).toNat else l.take n.toNat

/-- The `zip(queries, distances)` of `score_similar`: every member name paired
with the metric distance of its vector from the query vector
(`pairwise_distances(vector_matrix, vec.reshape(1, -1), metric)` row by
row). -/
def scoredList (C : EmbeddingSet) (v : List ℚ) (d : Metric) :
    List (String × ℚ) :=
  C.embeddings.map (fun kv => (kv.1, d kv.2.vector v))

/-- `EmbeddingSet.score_similar`: the `n > len(self)` guard, query resolution,
scoring of every member, stable ascending sort on the distance, slice `[:n]`,
and the final `[(self[q], float(d)) ...]` lookup (the names come from the
keys, so the lookup always succeeds; `getD` gives it a total Lean type). -/
def scoreSimilar (C : EmbeddingSet) (q : Query) (n : ℤ) (d : Metric) :
    Except EmbErr (List (Embedding × ℚ)) :=
  if (C.embeddings.length : ℤ) < n then .error .invalidRequest
  else
    match resolveQuery C q with
    | .error e => .error e
    | .ok emb =>
      .ok ((pyTake n (sortByKey (scoredList C emb.vector d))).map
        (fun p => ((alook p.1 C.embeddings).getD defaultEmb, p.2)))

/-- `__or__` with an `Embedding` operand: every member is orthogonalized
against the operand and the result is rebuilt through `__init__` (hence the
shape check), named by joining the two operand names with the bar operator in
parentheses. -/
def orEmb (C : EmbeddingSet) (e : Embedding) : Except EmbErr EmbeddingSet :=
  finishInit (some ("(" ++ C.name ++ " | " ++ e.name ++ ")"))
    (C.embeddings.map (fun kv => (kv.1, kv.2.orth e)))

/-- Python's `functools.reduce` on a nonempty list (the empty case never
occurs in the source: the slice `orth_away[: i + 1]` is never empty). -/
def reduce1 (f : Embedding → Embedding → Embedding) : List Embedding → Embedding
  | [] => defaultEmb
  | x :: xs => xs.foldl f x

/-- The basis-building loop of `__or__` with an `EmbeddingSet` operand:
`for i in range(len(orth_away)): orth_away[i] = reduce(lambda a, b: b | a, orth_away[: i + 1])`
— an in-place update of the list at index `i`, folding the flipped entity-level
orthogonalization over the already-updated prefix. -/
def gramBasis (vs : List Embedding) : List Embedding :=
  (List.range vs.length).foldl
    (fun l i => l.set i (reduce1 (fun a b => Embedding.orth b a) (l.take (i + 1))))
    vs

/-- The loop `for e in orth_away: new_set = new_set | e`, with a raised
exception aborting the loop. -/
def foldOr : Except EmbErr EmbeddingSet → List Embedding → Except EmbErr EmbeddingSet
  | s, [] => s
  | .error e, _ :: _ => .error e
  | .ok s, e :: rest => foldOr (orEmb s e) rest

/-- `__or__` with an `EmbeddingSet` operand: build the basis with `gramBasis`,
re-wrap the receiver's entries (`new_set = EmbeddingSet(self.embeddings.copy())`,
no name argument), then fold `new_set = new_set | e` over the basis vectors. -/
def orSet (C other : EmbeddingSet) : Except EmbErr EmbeddingSet :=
  foldOr (mkEmbeddingSet [InitArg.dict C.embeddings] none)
    (gramBasis (other.embeddings.map Prod.snd))

/-- All entries of a mapping carry vectors of one common length — the
invariant the constructor's shape check enforces. -/
def uniformDims (d : List (String × Embedding)) : Prop :=
  ∀ p ∈ d, ∀ q ∈ d, p.2.vector.length = q.2.vector.length

instance uniformDims.instDecidable (d : List (String × Embedding)) :
    Decidable (uniformDims d) := by
  unfold uniformDims
  infer_instance

/-- The names `a` and `b` share: the intersection of their key lists. -/
def sharedNames (a b : List (String × Embedding)) : List String :=
  (a.map Prod.fst).filter (fun k => decide (k ∈ b.map Prod.fst))

/-! Concrete collections used to exercise the theorems below on explicit
inputs. -/

/-- A spanning set of three 3-dimensional vectors: the third Gram-Schmidt
step must orthogonalize against both earlier basis vectors for the subspace
projection to be correct. -/
def c1S : EmbeddingSet :=
  ⟨"S", [("a", ⟨"a", [1, 0, 0], []⟩), ("b", ⟨"b", [1, 1, 0], []⟩),
         ("c", ⟨"c", [1, 1, 1], []⟩)]⟩

/-- A one-member collection to project away from the span of `c1S`. -/
def c1C : EmbeddingSet := ⟨"C", [("x", ⟨"x", [0, 0, 1], []⟩)]⟩

/-- The constant-zero metric (the `metric` parameter is an arbitrary pairwise
function, so this is a legitimate instance). -/
def mZero : Metric := fun _ _ => 0

/-- A two-member 2-dimensional collection for the similarity-search witness. -/
def c2W : EmbeddingSet :=
  ⟨"EmbSet", [("p2", ⟨"p2", [1, 0], []⟩), ("r2", ⟨"r2", [0, 1], []⟩)]⟩

/-- The member of `c2W` named `"p2"`. -/
def c2E : Embedding := ⟨"p2", [1, 0], []⟩

/-- A two-member 1-dimensional collection for the negative-count query. -/
def c3W : EmbeddingSet :=
  ⟨"EmbSet", [("u3", ⟨"u3", [1], []⟩), ("v3", ⟨"v3", [2], []⟩)]⟩

/-- A two-member 2-dimensional collection for the mean witness. -/
def c4W : EmbeddingSet :=
  ⟨"C4", [("m4", ⟨"m4", [1, 3], []⟩), ("n4", ⟨"n4", [3, 5], []⟩)]⟩

/-- A 1-dimensional collection; merging it with the 2-dimensional `c5B`
trips the constructor's shape check. -/
def c5A : EmbeddingSet := ⟨"A5", [("a5", ⟨"a5", [1], []⟩)]⟩

/-- A 2-dimensional collection, dimension-incompatible with `c5A`. -/
def c5B : EmbeddingSet := ⟨"B5", [("b5", ⟨"b5", [1, 2], []⟩)]⟩

/-- A 2-dimensional collection sharing the name `"t5"` with `c5WB`. -/
def c5WA : EmbeddingSet :=
  ⟨"A5w", [("s5", ⟨"s5", [1, 0], []⟩), ("t5", ⟨"t5", [2, 0], []⟩)]⟩

/-- A 2-dimensional collection whose `"t5"` entry must win the merge. -/
def c5WB : EmbeddingSet :=
  ⟨"B5w", [("t5", ⟨"t5v2", [3, 1], []⟩), ("u5", ⟨"u5", [4, 4], []⟩)]⟩

/-- A one-member collection for the projection-idempotence witness. -/
def c7C : EmbeddingSet := ⟨"C7", [("w7", ⟨"w7", [2, 3], []⟩)]⟩

/-- A non-zero axis to orthogonalize `c7C` against, twice. -/
def b7 : Embedding := ⟨"b7", [0, 1], []⟩

/-- A two-member collection for the indexing witness. -/
def c9W : EmbeddingSet :=
  ⟨"C9", [("a9", ⟨"a9", [1, 2], []⟩), ("b9", ⟨"b9", [3, 4], []⟩)]⟩

/-- A named source collection: `filter` and `add_property` must forget the
name `"orig10"`. -/
def c10A : EmbeddingSet := ⟨"orig10", [("w0", ⟨"w0", [5], []⟩)]⟩

/-- A second named collection for the merge case of the naming claim. -/
def c10B : EmbeddingSet := ⟨"other10", [("z0", ⟨"z0", [6], []⟩)]⟩

section DictLemmas

lemma alook_eq_none_iff (k : String) (d : List (String × Embedding)) :
    alook k d = none ↔ k ∉ d.map Prod.fst := by
  induction d with
  | nil => simp [alook]
  | cons p rest ih =>
    by_cases h : p.1 = k
    · simp [alook, h]
    · simp only [alook, if_neg h, ih, List.map_cons, List.mem_cons]
      constructor
      · intro hk hc
        rcases hc with hc | hc
        · exact h hc.symm
        · exact hk hc
      · intro hk hc
        exact hk (Or.inr hc)

lemma alook_mem {k : String} {e : Embedding} {d : List (String × Embedding)}
    (h : alook k d = some e) : (k, e) ∈ d := by
  induction d with
  | nil => simp [alook] at h
  | cons p rest ih =>
    by_cases hp : p.1 = k
    · rw [alook, if_pos hp] at h
      have he : p.2 = e := by injection h
      have hpe : p = (k, e) := by
        cases p
        simp_all
      rw [← hpe]
      exact List.mem_cons_self _ _
    · rw [alook, if_neg hp] at h
      exact List.mem_cons_of_mem _ (ih h)

lemma alook_append (k : String) (l₁ l₂ : List (String × Embedding)) :
    alook k (l₁ ++ l₂) = optOr (alook k l₁) (alook k l₂) := by
  induction l₁ with
  | nil => cases h : alook k l₂ <;> simp [alook, optOr, h]
  | cons p rest ih =>
    by_cases hp : p.1 = k
    · simp [alook, hp, optOr]
    · simpa [alook, hp] using ih

lemma alook_mapMerge (k : String) (a b : List (String × Embedding)) :
    alook k (a.map (fun p => match alook p.1 b with | some v => (p.1, v) | none => p))
      = match alook k a with
        | none => none
        | some v => optOr (alook k b) (some v) := by
  induction a with
  | nil => simp [alook]
  | cons p rest ih =>
    by_cases hp : p.1 = k
    · subst hp
      cases hb : alook p.1 b <;> simp [alook, hb, optOr]
    · cases hb : alook p.1 b <;> simp [alook, hb, hp, ih]

lemma alook_filter_keep (k : String) (p : String × Embedding → Bool)
    (b : List (String × Embedding)) (h : ∀ v, p (k, v) = true) :
    alook k (b.filter p) = alook k b := by
  induction b with
  | nil => simp
  | cons q rest ih =>
    by_cases hq : q.1 = k
    · have : q = (k, q.2) := by
        cases q
        simp_all
      rw [this]
      simp [List.filter_cons, h q.2, alook, ih]
    · cases hpq : p q <;> simp [List.filter_cons, hpq, alook, hq, ih]

lemma alook_dictMerge (k : String) (a b : List (String × Embedding)) :
    alook k (dictMerge a b) = optOr (alook k b) (alook k a) := by
  rw [dictMerge, alook_append, alook_mapMerge]
  cases ha : alook k a with
  | some v => cases hb : alook k b <;> simp [optOr]
  | none =>
    have hk : k ∉ a.map Prod.fst := (alook_eq_none_iff k a).1 ha
    rw [alook_filter_keep k _ b (fun v => by simp [hk])]
    cases hb : alook k b <;> simp [optOr]

lemma length_filter_map_key (p : String → Bool) (b : List (String × Embedding)) :
    ((b.map Prod.fst).filter p).length = (b.filter (fun q => p q.1)).length := by
  induction b with
  | nil => simp
  | cons q rest ih =>
    cases hq : p q.1 <;> simp [List.filter_cons, hq, ih]

lemma shared_count_swap {a b : List (String × Embedding)}
    (ha : (a.map Prod.fst).Nodup) (hb : (b.map Prod.fst).Nodup) :
    (b.filter (fun q => decide (q.1 ∈ a.map Prod.fst))).length
      = (sharedNames a b).length := by
  rw [← length_filter_map_key (fun k => decide (k ∈ a.map Prod.fst)) b, sharedNames]
  have hfa : ((a.map Prod.fst).filter (fun k => decide (k ∈ b.map Prod.fst))).Nodup :=
    ha.filter _
  have hfb : ((b.map Prod.fst).filter (fun k => decide (k ∈ a.map Prod.fst))).Nodup :=
    hb.filter _
  rw [← List.toFinset_card_of_nodup hfa, ← List.toFinset_card_of_nodup hfb,
    List.toFinset_filter, List.toFinset_filter]
  have e1 : ((b.map Prod.fst).toFinset.filter (fun k => k ∈ a.map Prod.fst))
      = (b.map Prod.fst).toFinset ∩ (a.map Prod.fst).toFinset := by
    apply Finset.ext
    intro x
    simp [List.mem_toFinset]
  have e2 : ((a.map Prod.fst).toFinset.filter (fun k => k ∈ b.map Prod.fst))
      = (a.map Prod.fst).toFinset ∩ (b.map Prod.fst).toFinset := by
    apply Finset.ext
    intro x
    simp [List.mem_toFinset]
  simp only [decide_eq_true_eq]
  rw [e1, e2, Finset.inter_comm]

lemma length_dictMerge_aux (a b : List (String × Embedding)) :
    (dictMerge a b).length
      = a.length + (b.filter (fun q => decide (q.1 ∉ a.map Prod.fst))).length := by
  simp [dictMerge]

lemma length_dictMerge {a b : List (String × Embedding)}
    (ha : (a.map Prod.fst).Nodup) (hb : (b.map Prod.fst).Nodup) :
    (dictMerge a b).length
      = a.length + b.length - (sharedNames a b).length := by
  rw [length_dictMerge_aux]
  have hsplit := List.length_eq_length_filter_add
    (l := b) (fun q => decide (q.1 ∈ a.map Prod.fst))
  have hswap := shared_count_swap ha hb
  have hcompl :
      (b.filter (fun q => decide (q.1 ∉ a.map Prod.fst))).length
        = (b.filter (fun q => !(decide (q.1 ∈ a.map Prod.fst)))).length := by
    congr 1
    apply List.filter_congr
    intro q _
    by_cases hq : q.1 ∈ a.map Prod.fst <;> simp [hq]
  omega

end DictLemmas

section InitLemmas

lemma dedup_length_le_one_iff (L : List ℕ) :
    L.dedup.length ≤ 1 ↔ ∀ x ∈ L, ∀ y ∈ L, x = y := by
  constructor
  · intro h x hx y hy
    have hx' : x ∈ L.dedup := List.mem_dedup.2 hx
    have hy' : y ∈ L.dedup := List.mem_dedup.2 hy
    cases hd : L.dedup with
    | nil =>
      rw [hd] at hx'
      simp at hx'
    | cons z t =>
      rw [hd] at h hx' hy'
      cases t with
      | cons w t' => simp at h
      | nil =>
        simp at hx' hy'
        rw [hx', hy']
  · intro h
    cases hd : L.dedup with
    | nil => simp
    | cons z t =>
      cases t with
      | nil => simp
      | cons w t' =>
        exfalso
        have hnd := L.nodup_dedup
        rw [hd] at hnd
        have hz : z ∈ L := List.mem_dedup.1 (by rw [hd]; exact List.mem_cons_self _ _)
        have hw : w ∈ L := List.mem_dedup.1
          (by rw [hd]; exact List.mem_cons_of_mem _ (List.mem_cons_self _ _))
        have hzw : z = w := h z hz w hw
        rw [List.nodup_cons] at hnd
        exact hnd.1 (hzw ▸ List.mem_cons_self _ _)

lemma shapeOk_iff (d : List (String × Embedding)) :
    shapeOk d = true ↔ uniformDims d := by
  unfold shapeOk
  rw [decide_eq_true_eq, dedup_length_le_one_iff]
  unfold uniformDims
  constructor
  · intro h p hp q hq
    exact h _ (List.mem_map_of_mem _ hp) _ (List.mem_map_of_mem _ hq)
  · intro h x hx y hy
    rcases List.mem_map.1 hx with ⟨p, hp, rfl⟩
    rcases List.mem_map.1 hy with ⟨q, hq, rfl⟩
    exact h p hp q hq

lemma finishInit_ok_iff {nm : Option String} {d : List (String × Embedding)}
    {s : EmbeddingSet} :
    finishInit nm d = .ok s ↔ (uniformDims d ∧ s = ⟨resolveName nm, d⟩) := by
  unfold finishInit
  by_cases h : shapeOk d = true
  · rw [if_pos h]
    simp [eq_comm, (shapeOk_iff d).1 h]
  · rw [if_neg h]
    simp only [shapeOk_iff] at h
    simp [h]

lemma finishInit_err_shape_iff {nm : Option String} {d : List (String × Embedding)} :
    finishInit nm d = .error .shapeMismatch ↔ ¬ uniformDims d := by
  unfold finishInit
  by_cases h : shapeOk d = true
  · rw [if_pos h]
    simp [(shapeOk_iff d).1 h]
  · rw [if_neg h]
    simp only [shapeOk_iff] at h
    simp [h]

lemma mk_dict_eq (d : List (String × Embedding)) (nm : Option String) :
    mkEmbeddingSet [InitArg.dict d] nm = finishInit nm d := rfl

lemma mk_embs_eq (e : Embedding) (es : List Embedding) (nm : Option String) :
    mkEmbeddingSet ((e :: es).map InitArg.emb) nm
      = (if (((e :: es).map Embedding.name).dedup.length
              = ((e :: es).map Embedding.name).length)
          then finishInit nm ((e :: es).map (fun x => (x.name, x)))
          else .error .duplicateNames) := by
  show (if ((((e :: es).map InitArg.emb).filterMap _).map Embedding.name).dedup.length
          = ((((e :: es).map InitArg.emb).filterMap _).map Embedding.name).length
        then _ else _) = _
  rw [List.filterMap_map]
  have hfm : ((e :: es).filterMap
      ((fun a => match a with
        | InitArg.emb e => some e
        | InitArg.dict _ => none) ∘ InitArg.emb)) = e :: es := by
    have : ((fun a => match a with
        | InitArg.emb e => some e
        | InitArg.dict _ => none) ∘ InitArg.emb) = fun x : Embedding => some x := rfl
    rw [this, List.filterMap_some]
  rw [hfm]

end InitLemmas

section SortLemmas

lemma insertByKey_perm (x : String × ℚ) (l : List (String × ℚ)) :
    List.Perm (insertByKey x l) (x :: l) := by
  induction l with
  | nil => simp [insertByKey]
  | cons y ys ih =>
    by_cases h : x.2 ≤ y.2
    · rw [insertByKey, if_pos h]
    · rw [insertByKey, if_neg h]
      exact (ih.cons y).trans (List.Perm.swap x y ys)

lemma sortByKey_perm (l : List (String × ℚ)) : List.Perm (sortByKey l) l := by
  induction l with
  | nil => simp [sortByKey]
  | cons x xs ih =>
    exact (insertByKey_perm x (sortByKey xs)).trans (ih.cons x)

lemma insertByKey_sorted {x : String × ℚ} {l : List (String × ℚ)}
    (h : List.Sorted (fun u v : String × ℚ => u.2 ≤ v.2) l) :
    List.Sorted (fun u v : String × ℚ => u.2 ≤ v.2) (insertByKey x l) := by
  induction l with
  | nil => simp [insertByKey]
  | cons y ys ih =>
    have hy : ∀ b ∈ ys, y.2 ≤ b.2 := (List.sorted_cons.1 h).1
    have hys : List.Sorted (fun u v : String × ℚ => u.2 ≤ v.2) ys :=
      (List.sorted_cons.1 h).2
    by_cases hxy : x.2 ≤ y.2
    · rw [insertByKey, if_pos hxy, List.sorted_cons]
      refine ⟨?_, h⟩
      intro b hb
      rcases List.mem_cons.1 hb with hb | hb
      · rw [hb]
        exact hxy
      · exact hxy.trans (hy b hb)
    · rw [insertByKey, if_neg hxy, List.sorted_cons]
      refine ⟨?_, ih hys⟩
      intro b hb
      rcases List.mem_cons.1 ((insertByKey_perm x ys).mem_iff.1 hb) with hb | hb
      · rw [hb]
        exact le_of_not_le hxy
      · exact hy b hb

lemma sortByKey_sorted (l : List (String × ℚ)) :
    List.Sorted (fun u v : String × ℚ => u.2 ≤ v.2) (sortByKey l) := by
  induction l with
  | nil => simp [sortByKey]
  | cons x xs ih => exact insertByKey_sorted ih

lemma insertByKey_filter (x : String × ℚ) (l : List (String × ℚ)) (c : ℚ) :
    (insertByKey x l).filter (fun p => decide (p.2 = c))
      = if x.2 = c
          then x :: l.filter (fun p => decide (p.2 = c))
          else l.filter (fun p => decide (p.2 = c)) := by
  induction l with
  | nil => by_cases hx : x.2 = c <;> simp [insertByKey, hx]
  | cons y ys ih =>
    by_cases hxy : x.2 ≤ y.2
    · rw [insertByKey, if_pos hxy]
      by_cases hx : x.2 = c <;> simp [List.filter_cons, hx]
    · rw [insertByKey, if_neg hxy]
      have hyx : y.2 < x.2 := not_le.1 hxy
      by_cases hy : y.2 = c
      · by_cases hx : x.2 = c
        · exact absurd (hy.trans hx.symm) (ne_of_lt hyx)
        · simp [List.filter_cons, hy, hx, ih]
      · simp [List.filter_cons, hy, ih]

lemma sortByKey_filter (l : List (String × ℚ)) (c : ℚ) :
    (sortByKey l).filter (fun p => decide (p.2 = c))
      = l.filter (fun p => decide (p.2 = c)) := by
  induction l with
  | nil => simp [sortByKey]
  | cons x xs ih =>
    rw [sortByKey, insertByKey_filter]
    by_cases hx : x.2 = c <;> simp [List.filter_cons, hx, ih]

end SortLemmas

section MeanLemmas

lemma getD_zipWith_add (a b : List ℚ) (j : ℕ) (ha : j < a.length) (hb : j < b.length) :
    (List.zipWith (fun x y => x + y) a b).getD j 0 = a.getD j 0 + b.getD j 0 := by
  induction a generalizing b j with
  | nil => simp at ha
  | cons x xs ih =>
    cases b with
    | nil => simp at hb
    | cons y ys =>
      cases j with
      | zero => simp
      | succ j' =>
        simp only [List.zipWith_cons_cons, List.getD_cons_succ]
        exact ih ys j' (Nat.lt_of_succ_lt_succ ha) (Nat.lt_of_succ_lt_succ hb)

lemma sumVecs_length {rows : List (List ℚ)} {D : ℕ}
    (h : ∀ v ∈ rows, v.length = D) (hne : rows ≠ []) : (sumVecs rows).length = D := by
  induction rows with
  | nil => exact absurd rfl hne
  | cons v vs ih =>
    cases vs with
    | nil => simpa [sumVecs] using h v (List.mem_cons_self _ _)
    | cons w ws =>
      have h1 : v.length = D := h v (List.mem_cons_self _ _)
      have h2 : (sumVecs (w :: ws)).length = D :=
        ih (fun u hu => h u (List.mem_cons_of_mem _ hu)) (by simp)
      show (List.zipWith _ v (sumVecs (w :: ws))).length = D
      rw [List.length_zipWith, h1, h2, min_self]

lemma sumVecs_getD {rows : List (List ℚ)} {D : ℕ} (h : ∀ v ∈ rows, v.length = D)
    {j : ℕ} (hj : j < D) :
    (sumVecs rows).getD j 0 = (rows.map (fun v => v.getD j 0)).sum := by
  induction rows with
  | nil => simp [sumVecs]
  | cons v vs ih =>
    cases vs with
    | nil => simp [sumVecs]
    | cons w ws =>
      have h1 : v.length = D := h v (List.mem_cons_self _ _)
      have htail : ∀ u ∈ w :: ws, u.length = D :=
        fun u hu => h u (List.mem_cons_of_mem _ hu)
      have h2 : (sumVecs (w :: ws)).length = D := sumVecs_length htail (by simp)
      show (List.zipWith _ v (sumVecs (w :: ws))).getD j 0 = _
      rw [getD_zipWith_add v _ j (h1 ▸ hj) (h2 ▸ hj), List.map_cons, List.sum_cons,
        ih htail]

lemma getD_map_div (l : List ℚ) (c : ℚ) (j : ℕ) (hj : j < l.length) :
    (l.map (fun x => x / c)).getD j 0 = l.getD j 0 / c := by
  induction l generalizing j with
  | nil => simp at hj
  | cons x xs ih =>
    cases j with
    | zero => simp
    | succ j' =>
      simp only [List.map_cons, List.getD_cons_succ]
      exact ih j' (Nat.lt_of_succ_lt_succ hj)

end MeanLemmas

section OrthLemmas

lemma dotQ_nil_left (b : List ℚ) : dotQ [] b = 0 := by simp [dotQ]

lemma dotQ_cons (x y : ℚ) (xs ys : List ℚ) :
    dotQ (x :: xs) (y :: ys) = x * y + dotQ xs ys := by
  simp [dotQ]

lemma dotQ_sub_smul (a b : List ℚ) (c : ℚ) (hlen : a.length = b.length) :
    dotQ (List.zipWith (fun x y => x - c * y) a b) b = dotQ a b - c * dotQ b b := by
  induction a generalizing b with
  | nil =>
    cases b with
    | nil => simp [dotQ]
    | cons y ys => simp at hlen
  | cons x xs ih =>
    cases b with
    | nil => simp at hlen
    | cons y ys =>
      have hlen' : xs.length = ys.length := by simpa using hlen
      rw [List.zipWith_cons_cons, dotQ_cons, dotQ_cons, dotQ_cons, ih ys hlen']
      ring

lemma zipWith_sub_zero_smul (v b : List ℚ) (h : v.length ≤ b.length) :
    List.zipWith (fun x y => x - 0 * y) v b = v := by
  induction v generalizing b with
  | nil => simp
  | cons x xs ih =>
    cases b with
    | nil => simp at h
    | cons y ys =>
      rw [List.zipWith_cons_cons, zero_mul, sub_zero, ih ys (by simpa using h)]

lemma orth_vector_length (a b : Embedding) :
    (a.orth b).vector.length = min a.vector.length b.vector.length := by
  simp [Embedding.orth]

lemma dotQ_orth_self {a b : Embedding} (hb : dotQ b.vector b.vector ≠ 0)
    (hlen : a.vector.length = b.vector.length) :
    dotQ (a.orth b).vector b.vector = 0 := by
  show dotQ (List.zipWith _ a.vector b.vector) b.vector = 0
  rw [dotQ_sub_smul a.vector b.vector _ hlen, div_mul_cancel₀ _ hb, sub_self]

lemma orth_orth_self {a b : Embedding} (hb : dotQ b.vector b.vector ≠ 0)
    (hlen : a.vector.length = b.vector.length) :
    ((a.orth b).orth b).vector = (a.orth b).vector := by
  show List.zipWith
      (fun x y => x - (dotQ (a.orth b).vector b.vector / dotQ b.vector b.vector) * y)
      (a.orth b).vector b.vector = (a.orth b).vector
  rw [dotQ_orth_self hb hlen, zero_div]
  exact zipWith_sub_zero_smul _ _ (by rw [orth_vector_length, hlen, min_self])

end OrthLemmas

section GetLemmas

lemma getPairs_of_all_mem {C : EmbeddingSet} {ts : List String}
    (h : ∀ t ∈ ts, (alook t C.embeddings).isSome) :
    getPairs C ts
      = .ok (ts.map (fun t => (t, (alook t C.embeddings).getD defaultEmb))) := by
  induction ts with
  | nil => simp [getPairs]
  | cons t ts ih =>
    obtain ⟨e, he⟩ := Option.isSome_iff_exists.1 (h t (List.mem_cons_self _ _))
    rw [getPairs, he, ih (fun u hu => h u (List.mem_cons_of_mem _ hu))]
    simp [he]

lemma foldl_dictSet_nodup (pairs acc : List (String × Embedding))
    (hnd : (pairs.map Prod.fst).Nodup)
    (hdisj : ∀ p ∈ pairs, p.1 ∉ acc.map Prod.fst) :
    pairs.foldl (fun a q => dictSet a q.1 q.2) acc = acc ++ pairs := by
  induction pairs generalizing acc with
  | nil => simp
  | cons p ps ih =>
    have hp : p.1 ∉ acc.map Prod.fst := hdisj p (List.mem_cons_self _ _)
    have hps : p.1 ∉ ps.map Prod.fst := by
      rw [List.map_cons, List.nodup_cons] at hnd
      exact hnd.1
    rw [List.foldl_cons]
    have hset : dictSet acc p.1 p.2 = acc ++ [p] := by
      rw [dictSet, if_neg hp]
    rw [hset, ih (acc ++ [p])
      (by rw [List.map_cons, List.nodup_cons] at hnd; exact hnd.2)
      ?_]
    · rw [List.append_assoc]
      rfl
    · intro q hq
      rw [List.map_append, List.mem_append]
      rintro (hqa | hqp)
      · exact hdisj q (List.mem_cons_of_mem _ hq) hqa
      · simp at hqp
        exact hps (hqp ▸ List.mem_map_of_mem Prod.fst hq)

end GetLemmas

section SliceLemmas

lemma pyTake_nonneg {α : Type} (n : ℤ) (h : 0 ≤ n) (l : List α) :
    pyTake n l = l.take n.toNat := by
  rw [pyTake, if_neg (not_lt.2 h)]

end SliceLemmas

/-! Claim theorems. -/

/-- C8: constructing an `EmbeddingSet` from zero positional arguments always
fails — the constructor indexes `embeddings[0]` unconditionally, an
`IndexError` — while an empty collection is obtained by passing an empty
mapping (whatever the name argument), or as the result of an operation such
as `filter` with an unsatisfiable predicate. -/
theorem C8_empty_args_always_fail :
    (∀ nm, mkEmbeddingSet [] nm = .error .indexError)
    ∧ (∀ nm, mkEmbeddingSet [InitArg.dict []] nm = .ok ⟨resolveName nm, []⟩)
    ∧ (∀ C : EmbeddingSet, filterSet C (fun _ => false) = .ok ⟨"EmbSet", []⟩) := by
  refine ⟨fun nm => rfl, fun nm => rfl, fun C => ?_⟩
  rw [filterSet, List.filter_false]
  rfl

/-- C10: `filter`, `merge` and `add_property` rebuild their result through
the constructor with no name argument, so the resulting collection carries
the default name `"EmbSet"` — never a label derived from the source
collection's name or from the operation — while the entries are exactly the
filtered / merged / property-enriched entries. -/
theorem C10_results_carry_default_name :
    (∀ (C : EmbeddingSet) (p : Embedding → Bool) (r : EmbeddingSet),
       filterSet C p = .ok r →
         r.name = "EmbSet"
         ∧ r.embeddings = C.embeddings.filter (fun kv => p kv.2))
    ∧ (∀ (C D r : EmbeddingSet),
       mergeSet C D = .ok r →
         r.name = "EmbSet"
         ∧ r.embeddings = dictMerge C.embeddings D.embeddings)
    ∧ (∀ (C : EmbeddingSet) (k : String) (f : Embedding → String) (r : EmbeddingSet),
       addProperty C k f = .ok r →
         r.name = "EmbSet"
         ∧ r.embeddings
             = C.embeddings.map (fun kv => (kv.1, kv.2.addProp k (f kv.2)))) := by
  refine ⟨?_, ?_, ?_⟩
  · intro C p r h
    rw [filterSet, mk_dict_eq, finishInit_ok_iff] at h
    rw [h.2]
    exact ⟨rfl, rfl⟩
  · intro C D r h
    rw [mergeSet, mk_dict_eq, finishInit_ok_iff] at h
    rw [h.2]
    exact ⟨rfl, rfl⟩
  · intro C k f r h
    rw [addProperty, mk_dict_eq, finishInit_ok_iff] at h
    rw [h.2]
    exact ⟨rfl, rfl⟩

/-- Witness for C10: on the concretely named collections `c10A` (named
`"orig10"`) and `c10B` (named `"other10"`), all three operations yield the
default name `"EmbSet"` and the expected entries. -/
theorem C10_results_carry_default_name_witness :
    ((⟨"EmbSet", [("w0", ⟨"w0", [5], []⟩)]⟩ : EmbeddingSet).name = "EmbSet"
      ∧ (⟨"EmbSet", [("w0", ⟨"w0", [5], []⟩)]⟩ : EmbeddingSet).embeddings
          = c10A.embeddings.filter (fun kv => (fun _ => true) kv.2))
    ∧ ((⟨"EmbSet", dictMerge c10A.embeddings c10B.embeddings⟩ : EmbeddingSet).name
          = "EmbSet"
      ∧ (⟨"EmbSet", dictMerge c10A.embeddings c10B.embeddings⟩ : EmbeddingSet).embeddings
          = dictMerge c10A.embeddings c10B.embeddings)
    ∧ ((⟨"EmbSet", [("w0", Embedding.addProp ⟨"w0", [5], []⟩ "g" "x")]⟩ :
          EmbeddingSet).name = "EmbSet"
      ∧ (⟨"EmbSet", [("w0", Embedding.addProp ⟨"w0", [5], []⟩ "g" "x")]⟩ :
          EmbeddingSet).embeddings
          = c10A.embeddings.map
              (fun kv => (kv.1, kv.2.addProp "g" ((fun _ => "x") kv.2)))) :=
  ⟨C10_results_carry_default_name.1 c10A (fun _ => true)
      ⟨"EmbSet", [("w0", ⟨"w0", [5], []⟩)]⟩ (by decide),
   C10_results_carry_default_name.2.1 c10A c10B
      ⟨"EmbSet", dictMerge c10A.embeddings c10B.embeddings⟩ (by decide),
   C10_results_carry_default_name.2.2 c10A "g" (fun _ => "x")
      ⟨"EmbSet", [("w0", Embedding.addProp ⟨"w0", [5], []⟩ "g" "x")]⟩ (by decide)⟩

/-- C6 counterexample: entities `dup6 : [1]` and `dup6 : [1, 2]` have vectors
of differing dimension, yet construction fails with the duplicate-name
`Warning`, not with the dimension-mismatch `ValueError` — the name check runs
first. -/
theorem C6_dimension_error_counterexample :
    mkEmbeddingSet
        [InitArg.emb ⟨"dup6", [1], []⟩, InitArg.emb ⟨"dup6", [1, 2], []⟩] none
      = .error .duplicateNames
    ∧ EmbErr.duplicateNames ≠ EmbErr.shapeMismatch :=
  ⟨by decide, by decide⟩

/-- C6 (amended): construction from a list with a repeated name fails with the
duplicate-name error before any dimension check; otherwise — a mapping
argument, or a list of entities with pairwise-distinct names — construction
fails with the dimension-mismatch error exactly when the vectors do not all
share one dimension, and every successfully constructed collection has
members of one common vector length. -/
theorem C6_construction_dimension_check :
    (∀ (d : List (String × Embedding)) (nm : Option String),
       mkEmbeddingSet [InitArg.dict d] nm = .error .shapeMismatch
         ↔ ¬ uniformDims d)
    ∧ (∀ (e : Embedding) (es : List Embedding) (nm : Option String),
       ((e :: es).map Embedding.name).Nodup →
         (mkEmbeddingSet ((e :: es).map InitArg.emb) nm = .error .shapeMismatch
           ↔ ¬ uniformDims ((e :: es).map (fun x => (x.name, x)))))
    ∧ (∀ (args : List InitArg) (nm : Option String) (s : EmbeddingSet),
       mkEmbeddingSet args nm = .ok s → uniformDims s.embeddings) := by
  refine ⟨?_, ?_, ?_⟩
  · intro d nm
    rw [mk_dict_eq, finishInit_err_shape_iff]
  · intro e es nm hnd
    rw [mk_embs_eq, if_pos (by rw [List.dedup_eq_self.2 hnd]),
      finishInit_err_shape_iff]
  · intro args nm s h
    rcases args with _ | ⟨a, rest⟩
    · exact absurd h (by simp [mkEmbeddingSet])
    · cases a with
      | dict d =>
        have hd : finishInit nm d = .ok s := h
        rw [finishInit_ok_iff] at hd
        rw [hd.2]
        exact hd.1
      | emb e =>
        simp only [mkEmbeddingSet] at h
        by_cases hc :
            ((((InitArg.emb e :: rest).filterMap (fun a =>
                match a with
                | InitArg.emb e => some e
                | InitArg.dict _ => none)).map Embedding.name).dedup).length
              = (((InitArg.emb e :: rest).filterMap (fun a =>
                match a with
                | InitArg.emb e => some e
                | InitArg.dict _ => none)).map Embedding.name).length
        · rw [if_pos hc, finishInit_ok_iff] at h
          rw [h.2]
          exact h.1
        · rw [if_neg hc] at h
          exact absurd h (by simp)

/-- Witness for C6: a mapping with vectors `[1]` and `[1, 2]` trips the
dimension check, and a successfully constructed one-entry collection is
uniform. -/
theorem C6_construction_dimension_check_witness :
    (mkEmbeddingSet
        [InitArg.dict [("x6", ⟨"x6", [1], []⟩), ("y6", ⟨"y6", [1, 2], []⟩)]] none
      = .error .shapeMismatch)
    ∧ (mkEmbeddingSet [InitArg.emb ⟨"q6", [1], []⟩, InitArg.emb ⟨"r6", [1, 2], []⟩]
        none = .error .shapeMismatch)
    ∧ uniformDims
        (⟨"EmbSet", [("x6", ⟨"x6", [1], []⟩)]⟩ : EmbeddingSet).embeddings :=
  ⟨(C6_construction_dimension_check.1
      [("x6", ⟨"x6", [1], []⟩), ("y6", ⟨"y6", [1, 2], []⟩)] none).2 (by decide),
   (C6_construction_dimension_check.2.1 ⟨"q6", [1], []⟩ [⟨"r6", [1, 2], []⟩] none
      (by decide)).2 (by decide),
   C6_construction_dimension_check.2.2 [InitArg.dict [("x6", ⟨"x6", [1], []⟩)]]
      none ⟨"EmbSet", [("x6", ⟨"x6", [1], []⟩)]⟩ (by decide)⟩

/-- C5 counterexample: merging a 1-dimensional collection with a
2-dimensional one does not produce the union — the result is rebuilt through
the constructor, whose shape check raises the dimension `ValueError`. -/
theorem C5_merge_dimension_counterexample :
    mergeSet c5A c5B = .error .shapeMismatch := by decide

/-- C5 (amended): for collections `A`, `B` (unique keys each) whose combined
entries share one vector dimension, `merge` returns the dict union — every
name maps to `B`'s entry when present there, else `A`'s; a name present in
both gets `B`'s entry (last-write-wins) — and the size is
`len(A) + len(B) - |names(A) ∩ names(B)|`. -/
theorem C5_merge_spec (A B : EmbeddingSet)
    (hA : (A.embeddings.map Prod.fst).Nodup)
    (hB : (B.embeddings.map Prod.fst).Nodup)
    (hdim : uniformDims (dictMerge A.embeddings B.embeddings)) :
    mergeSet A B = .ok ⟨"EmbSet", dictMerge A.embeddings B.embeddings⟩
    ∧ (∀ k, alook k (dictMerge A.embeddings B.embeddings)
          = optOr (alook k B.embeddings) (alook k A.embeddings))
    ∧ (∀ k e f, alook k A.embeddings = some e → alook k B.embeddings = some f →
        alook k (dictMerge A.embeddings B.embeddings) = some f)
    ∧ (dictMerge A.embeddings B.embeddings).length
        = A.embeddings.length + B.embeddings.length
          - (sharedNames A.embeddings B.embeddings).length := by
  refine ⟨?_, fun k => alook_dictMerge k _ _, ?_, length_dictMerge hA hB⟩
  · rw [mergeSet, mk_dict_eq, finishInit_ok_iff]
    exact ⟨hdim, rfl⟩
  · intro k e f _ hb
    rw [alook_dictMerge, hb]
    rfl

/-- Witness for C5: the merge of `c5WA` and `c5WB`, which share the name
`"t5"`, satisfies all four conjuncts; in particular the shared entry comes
from `c5WB` and the size is `2 + 2 - 1`. -/
theorem C5_merge_spec_witness :
    mergeSet c5WA c5WB = .ok ⟨"EmbSet", dictMerge c5WA.embeddings c5WB.embeddings⟩
    ∧ (∀ k, alook k (dictMerge c5WA.embeddings c5WB.embeddings)
          = optOr (alook k c5WB.embeddings) (alook k c5WA.embeddings))
    ∧ (∀ k e f, alook k c5WA.embeddings = some e →
        alook k c5WB.embeddings = some f →
        alook k (dictMerge c5WA.embeddings c5WB.embeddings) = some f)
    ∧ (dictMerge c5WA.embeddings c5WB.embeddings).length
        = c5WA.embeddings.length + c5WB.embeddings.length
          - (sharedNames c5WA.embeddings c5WB.embeddings).length :=
  C5_merge_spec c5WA c5WB (by decide) (by decide) (by decide)

/-- C9: indexing with a single present name returns that entity itself, and
indexing with a sequence of names all present in `C` returns a new collection
containing exactly the corresponding name-to-entity pairs of `C`, in the
sequence's order (`C` itself, a pure value here, is untouched). -/
theorem C9_getitem_spec (C : EmbeddingSet) (ts : List String)
    (hC : uniformDims C.embeddings)
    (hnd : ts.Nodup)
    (hmem : ∀ t ∈ ts, (alook t C.embeddings).isSome) :
    (∀ t e, alook t C.embeddings = some e → getItemStr C t = .ok e)
    ∧ getItemList C ts
        = .ok ⟨resolveName
                 (some (C.name ++ ".subset(" ++ String.intercalate "," ts ++ ")")),
               ts.map (fun t => (t, (alook t C.embeddings).getD defaultEmb))⟩ := by
  constructor
  · intro t e he
    rw [getItemStr, he]
  · rw [getItemList, getPairs_of_all_mem hmem]
    have hkeys : ((ts.map (fun t => (t, (alook t C.embeddings).getD defaultEmb))).map
        Prod.fst) = ts := by
      rw [List.map_map]
      exact List.map_id ts
    have hnodkeys :
        ((ts.map (fun t => (t, (alook t C.embeddings).getD defaultEmb))).map
          Prod.fst).Nodup := by
      rw [hkeys]
      exact hnd
    show mkEmbeddingSet
        [InitArg.dict ((ts.map (fun t => (t, (alook t C.embeddings).getD defaultEmb))).foldl
          (fun acc q => dictSet acc q.1 q.2) [])]
        (some (C.name ++ ".subset(" ++ String.intercalate "," ts ++ ")")) = _
    rw [foldl_dictSet_nodup _ [] hnodkeys (by simp), List.nil_append, mk_dict_eq,
      finishInit_ok_iff]
    refine ⟨?_, rfl⟩
    intro p hp q hq
    rcases List.mem_map.1 hp with ⟨t, ht, rfl⟩
    rcases List.mem_map.1 hq with ⟨u, hu, rfl⟩
    obtain ⟨e, he⟩ := Option.isSome_iff_exists.1 (hmem t ht)
    obtain ⟨f, hf⟩ := Option.isSome_iff_exists.1 (hmem u hu)
    simp only [he, hf, Option.getD_some]
    exact hC (t, e) (alook_mem he) (u, f) (alook_mem hf)

/-- Witness for C9: indexing `c9W` with the name list `["b9", "a9"]` returns
exactly those two pairs, in that order, and single-name indexing returns the
entity. -/
theorem C9_getitem_spec_witness :
    (∀ t e, alook t c9W.embeddings = some e → getItemStr c9W t = .ok e)
    ∧ getItemList c9W ["b9", "a9"]
        = .ok ⟨resolveName
                 (some (c9W.name ++ ".subset("
                   ++ String.intercalate "," ["b9", "a9"] ++ ")")),
               ["b9", "a9"].map
                 (fun t => (t, (alook t c9W.embeddings).getD defaultEmb))⟩ :=
  C9_getitem_spec c9W ["b9", "a9"] (by decide) (by decide) (by decide)

/-- C7: orthogonalizing a collection against a non-zero single embedding of
matching dimension is idempotent — `(C | b) | b` succeeds and its member
vectors coincide (exactly, over `ℚ`) with those of `C | b`. -/
theorem C7_orthogonalize_idempotent (C : EmbeddingSet) (b : Embedding)
    (hb : dotQ b.vector b.vector ≠ 0)
    (hlen : ∀ kv ∈ C.embeddings, kv.2.vector.length = b.vector.length) :
    ∃ D E, orEmb C b = .ok D ∧ orEmb D b = .ok E
      ∧ E.embeddings.map (fun kv => (kv.1, kv.2.vector))
          = D.embeddings.map (fun kv => (kv.1, kv.2.vector)) := by
  have hu1 : uniformDims (C.embeddings.map (fun kv => (kv.1, kv.2.orth b))) := by
    intro p hp q hq
    rcases List.mem_map.1 hp with ⟨kv, hkv, rfl⟩
    rcases List.mem_map.1 hq with ⟨kv', hkv', rfl⟩
    simp only
    rw [orth_vector_length, orth_vector_length, hlen kv hkv, hlen kv' hkv']
  have hlen1 : ∀ kv ∈ C.embeddings.map (fun kv => (kv.1, kv.2.orth b)),
      kv.2.vector.length = b.vector.length := by
    intro p hp
    rcases List.mem_map.1 hp with ⟨kv, hkv, rfl⟩
    simp only
    rw [orth_vector_length, hlen kv hkv, min_self]
  have hu2 : uniformDims ((C.embeddings.map (fun kv => (kv.1, kv.2.orth b))).map
      (fun kv => (kv.1, kv.2.orth b))) := by
    intro p hp q hq
    rcases List.mem_map.1 hp with ⟨kv, hkv, rfl⟩
    rcases List.mem_map.1 hq with ⟨kv', hkv', rfl⟩
    simp only
    rw [orth_vector_length, orth_vector_length, hlen1 kv hkv, hlen1 kv' hkv']
  refine ⟨_, _, finishInit_ok_iff.2 ⟨hu1, rfl⟩, finishInit_ok_iff.2 ⟨hu2, rfl⟩, ?_⟩
  rw [List.map_map, List.map_map, List.map_map]
  apply List.map_congr_left
  intro kv hkv
  show (kv.1, ((kv.2.orth b).orth b).vector) = (kv.1, (kv.2.orth b).vector)
  rw [orth_orth_self hb (hlen kv hkv)]

/-- Witness for C7: orthogonalizing `c7C` (one member, vector `[2, 3]`)
against `b7 = [0, 1]` twice gives the same member vectors as doing it once. -/
theorem C7_orthogonalize_idempotent_witness :
    dotQ b7.vector b7.vector ≠ 0
    ∧ ∃ D E, orEmb c7C b7 = .ok D ∧ orEmb D b7 = .ok E
      ∧ E.embeddings.map (fun kv => (kv.1, kv.2.vector))
          = D.embeddings.map (fun kv => (kv.1, kv.2.vector)) :=
  ⟨by norm_num [b7, dotQ],
   C7_orthogonalize_idempotent c7C b7 (by norm_num [b7, dotQ]) (by decide)⟩

/-- C2: with a resolvable query (a member entity or a member's name) and
`0 ≤ n ≤ len(C)`, `score_similar` returns exactly `n` pairs: the first `n` of
the stable ascending sort of the list that scores every member — the query
itself included — by its metric distance from the query vector.  The returned
pairs are in non-decreasing distance order, and ties keep the members'
original iteration order: the sort is a permutation of the scored list that
preserves every equal-score subsequence. -/
theorem C2_score_similar_spec (C : EmbeddingSet) (q : Query) (n : ℤ) (d : Metric)
    (e : Embedding) (he : resolveQuery C q = .ok e) (h0 : 0 ≤ n)
    (hn : n ≤ (C.embeddings.length : ℤ)) :
    scoreSimilar C q n d
        = .ok (((sortByKey (scoredList C e.vector d)).take n.toNat).map
            (fun p => ((alook p.1 C.embeddings).getD defaultEmb, p.2)))
    ∧ ((((sortByKey (scoredList C e.vector d)).take n.toNat).map
            (fun p => ((alook p.1 C.embeddings).getD defaultEmb, p.2))).length : ℤ)
        = n
    ∧ List.Sorted (fun u v : Embedding × ℚ => u.2 ≤ v.2)
        (((sortByKey (scoredList C e.vector d)).take n.toNat).map
            (fun p => ((alook p.1 C.embeddings).getD defaultEmb, p.2)))
    ∧ scoredList C e.vector d
        = C.embeddings.map (fun kv => (kv.1, d kv.2.vector e.vector))
    ∧ List.Perm (sortByKey (scoredList C e.vector d)) (scoredList C e.vector d)
    ∧ (∀ c : ℚ,
        (sortByKey (scoredList C e.vector d)).filter (fun p => decide (p.2 = c))
          = (scoredList C e.vector d).filter (fun p => decide (p.2 = c))) := by
  have hnotlt : ¬ ((C.embeddings.length : ℤ) < n) := not_lt.2 hn
  refine ⟨?_, ?_, ?_, rfl, sortByKey_perm _, fun c => sortByKey_filter _ c⟩
  · rw [scoreSimilar, if_neg hnotlt, he]
    show Except.ok ((pyTake n (sortByKey (scoredList C e.vector d))).map
        (fun p => ((alook p.1 C.embeddings).getD defaultEmb, p.2))) = _
    rw [pyTake_nonneg n h0]
  · rw [List.length_map, List.length_take]
    have hlsort : (sortByKey (scoredList C e.vector d)).length
        = C.embeddings.length := by
      rw [(sortByKey_perm _).length_eq, scoredList, List.length_map]
    rw [hlsort, min_eq_left (Int.toNat_le.2 hn)]
    exact Int.toNat_of_nonneg h0
  · exact List.Pairwise.map _ (fun u v huv => huv)
      (List.Pairwise.sublist (List.take_sublist _ _) (sortByKey_sorted _))

/-- Witness for C2: querying `c2W` by the member name `"p2"` with `n = 1`
under the constant-zero metric returns exactly one pair, sorted, the sort
being a stable permutation of the two-member scored list. -/
theorem C2_score_similar_spec_witness :
    scoreSimilar c2W (Query.name "p2") 1 mZero
        = .ok (((sortByKey (scoredList c2W c2E.vector mZero)).take (1 : ℤ).toNat).map
            (fun p => ((alook p.1 c2W.embeddings).getD defaultEmb, p.2)))
    ∧ ((((sortByKey (scoredList c2W c2E.vector mZero)).take (1 : ℤ).toNat).map
            (fun p => ((alook p.1 c2W.embeddings).getD defaultEmb, p.2))).length : ℤ)
        = 1
    ∧ List.Sorted (fun u v : Embedding × ℚ => u.2 ≤ v.2)
        (((sortByKey (scoredList c2W c2E.vector mZero)).take (1 : ℤ).toNat).map
            (fun p => ((alook p.1 c2W.embeddings).getD defaultEmb, p.2)))
    ∧ scoredList c2W c2E.vector mZero
        = c2W.embeddings.map (fun kv => (kv.1, mZero kv.2.vector c2E.vector))
    ∧ List.Perm (sortByKey (scoredList c2W c2E.vector mZero))
        (scoredList c2W c2E.vector mZero)
    ∧ (∀ c : ℚ,
        (sortByKey (scoredList c2W c2E.vector mZero)).filter
            (fun p => decide (p.2 = c))
          = (scoredList c2W c2E.vector mZero).filter (fun p => decide (p.2 = c))) :=
  C2_score_similar_spec c2W (Query.name "p2") 1 mZero c2E (by decide) (by decide)
    (by decide)

/-- C3 counterexample: on the two-member collection `c3W`, the request
`n = -1` is negative yet raises nothing — the slice semantics of `[:n]`
return the first `len(C) - 1 = 1` pairs. -/
theorem C3_negative_n_counterexample :
    scoreSimilar c3W (Query.name "u3") (-1) mZero = .ok [(⟨"u3", [1], []⟩, 0)]
    ∧ (-1 : ℤ) < 0 := by
  refine ⟨?_, by decide⟩
  decide

/-- C3 (amended): `score_similar` fails with the invalid-request error exactly
when `n` exceeds the collection size; in particular a negative `n` is never
rejected (Python's slice `[:n]` then returns the first `max(0, len(C) + n)`
pairs). -/
theorem C3_invalid_request_iff (C : EmbeddingSet) (q : Query) (n : ℤ) (d : Metric) :
    scoreSimilar C q n d = .error .invalidRequest
      ↔ (C.embeddings.length : ℤ) < n := by
  rw [scoreSimilar]
  by_cases h : (C.embeddings.length : ℤ) < n
  · simp [h]
  · rw [if_neg h]
    simp only [h, iff_false]
    intro hcontra
    cases hr : resolveQuery C q with
    | ok e =>
      rw [hr] at hcontra
      simp at hcontra
    | error err =>
      rw [hr] at hcontra
      simp only [] at hcontra
      have herr : err = EmbErr.invalidRequest := by
        injection hcontra
      rcases q with s | e2
      · simp only [resolveQuery] at hr
        cases ha : alook s C.embeddings with
        | some e2 =>
          rw [ha] at hr
          simp at hr
        | none =>
          rw [ha] at hr
          rw [herr] at hr
          simp at hr
      · simp [resolveQuery] at hr

/-- C4 counterexample: the mean of a collection with zero members raises no
error at all — the source has no `raise`, and `np.mean` only warns — so it
does not fail with an `EmptyCollectionError`. -/
theorem C4_empty_average_counterexample :
    averageSet ⟨"E4", []⟩ none = .ok ⟨"E4.average()", [], []⟩ := rfl

/-- C4 (amended): `average` never fails; on a non-empty collection whose
members all have dimension `D` it returns a new entity whose vector has
length `D` and whose `j`-th coordinate is the arithmetic mean of the members'
`j`-th coordinates; on an empty collection it returns normally (numpy yields
a NaN mean with a `RuntimeWarning`, not an `EmptyCollectionError`). -/
theorem C4_average_mean (C : EmbeddingSet) (nm : Option String) (D : ℕ)
    (hne : C.embeddings ≠ [])
    (hdim : ∀ kv ∈ C.embeddings, kv.2.vector.length = D) :
    averageSet C nm
        = .ok ⟨avgName C nm, meanVec (C.embeddings.map (fun kv => kv.2.vector)), []⟩
    ∧ (meanVec (C.embeddings.map (fun kv => kv.2.vector))).length = D
    ∧ ∀ j < D, (meanVec (C.embeddings.map (fun kv => kv.2.vector))).getD j 0
        = ((C.embeddings.map (fun kv => kv.2.vector)).map (fun v => v.getD j 0)).sum
          / (C.embeddings.length : ℚ) := by
  have hrows : ∀ v ∈ C.embeddings.map (fun kv => kv.2.vector), v.length = D := by
    intro v hv
    rcases List.mem_map.1 hv with ⟨kv, hkv, rfl⟩
    exact hdim kv hkv
  have hrne : C.embeddings.map (fun kv => kv.2.vector) ≠ [] := by
    intro hmap
    exact hne (List.map_eq_nil_iff.1 hmap)
  have hlens : (sumVecs (C.embeddings.map (fun kv => kv.2.vector))).length = D :=
    sumVecs_length hrows hrne
  refine ⟨rfl, ?_, ?_⟩
  · rw [meanVec, List.length_map]
    exact hlens
  · intro j hj
    rw [meanVec, List.length_map, getD_map_div _ _ j (by rw [hlens]; exact hj),
      sumVecs_getD hrows hj]

/-- Witness for C4: the mean of `c4W` (members `[1, 3]` and `[3, 5]`) has
length 2 and coordinate-wise value `(sum of column) / 2`. -/
theorem C4_average_mean_witness :
    averageSet c4W none
        = .ok ⟨avgName c4W none, meanVec (c4W.embeddings.map (fun kv => kv.2.vector)), []⟩
    ∧ (meanVec (c4W.embeddings.map (fun kv => kv.2.vector))).length = 2
    ∧ ∀ j < 2, (meanVec (c4W.embeddings.map (fun kv => kv.2.vector))).getD j 0
        = ((c4W.embeddings.map (fun kv => kv.2.vector)).map (fun v => v.getD j 0)).sum
          / (c4W.embeddings.length : ℚ) :=
  C4_average_mean c4W none 2 (by decide) (by decide)

/-- C1 (evaluation at the failing input): projecting the one-member collection
`c1C` (vector `[0, 0, 1]`) away from the span of `c1S`
(`[1, 0, 0], [1, 1, 0], [1, 1, 1]`) yields the member vector
`[-1/2, 0, 1/2]`, whose dot product with the first spanning vector
`[1, 0, 0]` is `-1/2 ≠ 0`: the result is not orthogonal to the span, because
the basis loop orthogonalizes each `v_i` only against the accumulated single
vector (effectively `u_(i-1)`), not against all previous `u_1..u_(i-1)`. -/
theorem C1_subspace_orthogonality_fails :
    (orSet c1C c1S).map (fun s => s.embeddings.map (fun kv => kv.2.vector))
        = .ok [[-(1 : ℚ)/2, 0, 1/2]]
    ∧ dotQ [-(1 : ℚ)/2, 0, 1/2] [1, 0, 0] ≠ 0 := by
  constructor
  · norm_num [orSet, gramBasis, reduce1, orEmb, foldOr, finishInit, shapeOk,
      resolveName, mkEmbeddingSet, Embedding.orth, dotQ, List.range_succ, c1C, c1S,
      Except.map]
  · norm_num [dotQ]

end Whatlies
